import Mathlib

/-!
Verification of the CSV-to-JSON converter (`src/csv_to_json.py`).

The program reads a CSV file with Python's `csv.DictReader` (default
"excel" dialect: delimiter `,`, quotechar `"`, doublequote on, strict
off), collects all rows, and serializes them with
`json.dump(data, f, indent=4)`.  The file opened with `mode='r'`
performs universal-newline translation, so the CSV tokenizer only ever
sees `\n` as a line terminator; the embedding below works on the
translated text.

The development embeds, directly from the source:
  * the character-level CSV tokenizer of Python's `csv.reader`
    (states START_RECORD / START_FIELD / IN_FIELD / IN_QUOTED_FIELD /
    QUOTE_IN_QUOTED_FIELD of the CPython `_csv` state machine,
    specialized to the default dialect);
  * `csv.DictReader.__next__`: first record is the field-name list,
    blank records are skipped, `dict(zip(fieldnames, row))` with
    Python's insertion-ordered, update-in-place dict assignment,
    `restval=None` padding for short rows and `restkey=None`
    bucketing for long rows;
  * `json.dump(..., indent=4)` specialized to the exact shape of the
    data `DictReader` produces (a list of dicts whose keys are strings
    or None and whose values are strings, None, or lists of strings),
    with Python's `ensure_ascii` string escaping;
  * `main()` over an explicit file-system model, recording exit code,
    stdout lines, resulting file system and the order of file opens.
-/

namespace CsvToJson

/-! ## CSV tokenizer (`csv.reader`, default dialect) -/

/-- Parser states of the CPython `_csv` reader relevant to the default
dialect (EAT_CRNL is folded into `startRecord` because the text-mode
file layer has already translated all line endings to `\n`). -/
inductive CsvMode
  | startRecord
  | startField
  | inField
  | inQuoted
  | quoteInQuoted
deriving DecidableEq

/-- `csv.field_size_limit()`: the default maximum size of one field.
`parse_add_char` raises `_csv.Error("field larger than field limit")`
when a field would grow beyond it. -/
def fieldSizeLimit : Nat := 131072

/-- The `_csv.Error` the reader can raise with the default dialect:
a field exceeding `csv.field_size_limit()`. -/
inductive CsvErr
  | fieldTooLarge
deriving DecidableEq

/-- Tokenizer state: completed records, completed fields of the current
record, characters of the current field, the parser mode, and whether
`_csv.Error` has been raised (after which processing is over). -/
structure TokSt where
  recs : List (List (List Char))
  fields : List (List Char)
  cur : List Char
  mode : CsvMode
  err : Bool
deriving DecidableEq

/-- `parse_add_char`: append one character to the current field, or
raise `_csv.Error` once the field has reached `field_size_limit`. -/
def addChar (st : TokSt) (c : Char) (m : CsvMode) : TokSt :=
  if fieldSizeLimit ≤ st.cur.length then { st with err := true }
  else { st with cur := st.cur ++ [c], mode := m }

/-- One step of the `_csv` state machine on one character
(default dialect: delimiter `,`, quotechar `"`, doublequote,
non-strict).  Once the error is raised the state is final. -/
def csvStep (st : TokSt) (c : Char) : TokSt :=
  if st.err then st
  else
    match st.mode with
    | CsvMode.startRecord =>
      if c = '\n' then
        { st with recs := st.recs ++ [st.fields], fields := [], cur := [] }
      else if c = '"' then { st with mode := CsvMode.inQuoted }
      else if c = ',' then
        { st with fields := st.fields ++ [st.cur], cur := [], mode := CsvMode.startField }
      else addChar st c CsvMode.inField
    | CsvMode.startField =>
      if c = '\n' then
        { st with recs := st.recs ++ [st.fields ++ [st.cur]], fields := [], cur := [],
                  mode := CsvMode.startRecord }
      else if c = '"' then { st with mode := CsvMode.inQuoted }
      else if c = ',' then { st with fields := st.fields ++ [st.cur], cur := [] }
      else addChar st c CsvMode.inField
    | CsvMode.inField =>
      if c = '\n' then
        { st with recs := st.recs ++ [st.fields ++ [st.cur]], fields := [], cur := [],
                  mode := CsvMode.startRecord }
      else if c = ',' then
        { st with fields := st.fields ++ [st.cur], cur := [], mode := CsvMode.startField }
      else addChar st c CsvMode.inField
    | CsvMode.inQuoted =>
      if c = '"' then { st with mode := CsvMode.quoteInQuoted }
      else addChar st c CsvMode.inQuoted
    | CsvMode.quoteInQuoted =>
      if c = '"' then addChar st c CsvMode.inQuoted
      else if c = '\n' then
        { st with recs := st.recs ++ [st.fields ++ [st.cur]], fields := [], cur := [],
                  mode := CsvMode.startRecord }
      else if c = ',' then
        { st with fields := st.fields ++ [st.cur], cur := [], mode := CsvMode.startField }
      else addChar st c CsvMode.inField

/-- End-of-data handling: a pending field/record is emitted (non-strict
mode: an unterminated quoted field is ended silently). -/
def csvFinish (st : TokSt) : List (List (List Char)) :=
  match st.mode with
  | CsvMode.startRecord => st.recs
  | _ => st.recs ++ [st.fields ++ [st.cur]]

def tokInit : TokSt := ⟨[], [], [], CsvMode.startRecord, false⟩

/-- All records of a character stream, as lists of fields, or the
`_csv.Error` for an over-limit field. -/
def tokenize (cs : List Char) : Except CsvErr (List (List (List Char))) :=
  if (cs.foldl csvStep tokInit).err then Except.error CsvErr.fieldTooLarge
  else Except.ok (csvFinish (cs.foldl csvStep tokInit))

/-- `list(csv.reader(f))` on the translated file contents. -/
def parseCsvRecords (s : String) : Except CsvErr (List (List String)) :=
  (tokenize s.data).map (fun rs => rs.map (fun r => r.map (fun f => String.mk f)))

/-! ## `csv.DictReader` -/

/-- A value stored in a `DictReader` row dict: a cell string, the
`restval` placeholder `None`, or the `restkey` bucket (a list of the
extra cells). -/
inductive RowVal
  | vstr (s : String)
  | vnone
  | vlist (xs : List String)
deriving DecidableEq

/-- A Python dict as produced by `DictReader`: insertion-ordered
association list; keys are column names (or `None`, the `restkey`). -/
abbrev Row := List (Option String × RowVal)

/-- Python dict assignment `d[k] = v`: update in place if the key is
present, append otherwise. -/
def dictInsert (d : Row) (k : Option String) (v : RowVal) : Row :=
  if d.any (fun kv => kv.1 = k) then
    d.map (fun kv => if kv.1 = k then (k, v) else kv)
  else d ++ [(k, v)]

/-- `dict(pairs)` built by repeated assignment (zip already truncated). -/
def dictOfPairs (l : List (Option String × RowVal)) : Row :=
  l.foldl (fun d kv => dictInsert d kv.1 kv.2) []

/-- One `DictReader.__next__` row: `d = dict(zip(fieldnames, row))`;
extras under `restkey=None`, missing trailing columns set to
`restval=None`. -/
def makeRow (fieldnames : List String) (row : List String) : Row :=
  let d := dictOfPairs ((fieldnames.zip row).map (fun p => (some p.1, RowVal.vstr p.2)))
  if fieldnames.length < row.length then
    dictInsert d none (RowVal.vlist (row.drop fieldnames.length))
  else
    (fieldnames.drop row.length).foldl (fun e k => dictInsert e (some k) RowVal.vnone) d

/-- `list(csv.DictReader(f))`: the first record (even an empty one)
gives the field names; blank data records are skipped. -/
def dictReaderAll (records : List (List String)) : List Row :=
  match records with
  | [] => []
  | fieldnames :: rest => (rest.filter (fun r => !r.isEmpty)).map (makeRow fieldnames)

/-! ## `json.dump(data, f, indent=4)`

Specialized to the fixed nesting depth of `data` (an array of objects
whose values are strings, null, or arrays of strings), exactly as the
Python serializer formats it: item separator `,\n`, key separator
`: `, each nesting level indented 4 further spaces. -/

/-- Lowercase hex digit, as Python's `\uXXXX` escapes use. -/
def hexDigit (n : Nat) : Char :=
  if n < 10 then Char.ofNat (48 + n) else Char.ofNat (87 + n)

def hex4 (n : Nat) : String :=
  String.mk [hexDigit (n / 4096 % 16), hexDigit (n / 256 % 16),
             hexDigit (n / 16 % 16), hexDigit (n % 16)]

/-- `ensure_ascii` escaping of one character (CPython
`ESCAPE_ASCII` replacement: short escapes, else `\uXXXX`, with
surrogate pairs above the BMP). -/
def escChar (c : Char) : String :=
  if c = '"' then "\\\""
  else if c = '\\' then "\\\\"
  else if c = '\n' then "\\n"
  else if c = '\r' then "\\r"
  else if c = '\t' then "\\t"
  else if c.toNat = 8 then "\\b"
  else if c.toNat = 12 then "\\f"
  else if c.toNat < 32 ∨ 126 < c.toNat then
    if c.toNat < 65536 then "\\u" ++ hex4 c.toNat
    else
      "\\u" ++ hex4 (55296 + (c.toNat - 65536) / 1024) ++
      "\\u" ++ hex4 (56320 + (c.toNat - 65536) % 1024)
  else String.singleton c

def encJsonString (s : String) : String :=
  "\"" ++ String.join (s.data.map escChar) ++ "\""

/-- A `None` dict key is coerced to the string `"null"` by the JSON
encoder (`skipkeys=False` default). -/
def jsonKey : Option String → String
  | some s => s
  | none => "null"

def pad (n : Nat) : String := String.mk (List.replicate (4 * n) ' ')

/-- A row value serialized at object depth (depth 2; list elements of a
`restkey` bucket sit at depth 3). -/
def dumpVal : RowVal → String
  | RowVal.vstr s => encJsonString s
  | RowVal.vnone => "null"
  | RowVal.vlist [] => "[]"
  | RowVal.vlist (x :: xs) =>
    "[\n" ++
    String.intercalate ",\n" ((x :: xs).map (fun e => pad 3 ++ encJsonString e)) ++
    "\n" ++ pad 2 ++ "]"

/-- One row dict serialized at array-element depth (depth 1). -/
def dumpRow (r : Row) : String :=
  match r with
  | [] => "\x7b\x7d"
  | _ =>
    "\x7b\n" ++
    String.intercalate ",\n"
      (r.map (fun kv => pad 2 ++ encJsonString (jsonKey kv.1) ++ ": " ++ dumpVal kv.2)) ++
    "\n" ++ pad 1 ++ "\x7d"

/-- `json.dump(data, json_file, indent=4)`: the full output text. -/
def dumpData (rows : List Row) : String :=
  match rows with
  | [] => "[]"
  | _ =>
    "[\n" ++
    String.intercalate ",\n" (rows.map (fun r => pad 1 ++ dumpRow r)) ++
    "\n]"

/-! ## The program (`main`) over a file-system model -/

inductive OpenErr
  | notFound
  | permDenied
deriving DecidableEq

deriving instance DecidableEq for Except

/-- File system: contents per path, plus the paths on which read or
write access raises `PermissionError`. -/
structure FS where
  files : List (String × String)
  readDenied : List String
  writeDenied : List String
deriving DecidableEq

def FS.lookupFile (fs : FS) (p : String) : Option String :=
  (fs.files.find? (fun e => e.1 == p)).map (fun e => e.2)

/-- `open(p, mode='r')`: `PermissionError` or `FileNotFoundError` or
the (newline-translated) contents. -/
def FS.openRead (fs : FS) (p : String) : Except OpenErr String :=
  if p ∈ fs.readDenied then Except.error OpenErr.permDenied
  else
    match fs.lookupFile p with
    | none => Except.error OpenErr.notFound
    | some c => Except.ok c

/-- `open(p, mode='w')` succeeds (creating/truncating) unless write
permission is denied. -/
def FS.openWriteOk (fs : FS) (p : String) : Bool :=
  !(fs.writeDenied.contains p)

def FS.writeFile (fs : FS) (p : String) (c : String) : FS :=
  if fs.files.any (fun e => e.1 == p) then
    { fs with files := fs.files.map (fun e => if e.1 == p then (p, c) else e) }
  else { fs with files := fs.files ++ [(p, c)] }

/-- A file open attempted by the program, in program order. -/
inductive FsEvent
  | readOpen (p : String)
  | writeOpen (p : String)
deriving DecidableEq

structure ProgResult where
  exitCode : Nat
  stdout : List String
  fs : FS
  events : List FsEvent
deriving DecidableEq

def usageMsg : String :=
  "Usage: python csv_to_json.py <input_csv> <output_json>"

def notFoundMsg (p : String) : String :=
  "Error: The file " ++ p ++ " was not found."

def permDeniedMsg (i o : String) : String :=
  "Error: Permission denied when accessing " ++ i ++ " or " ++ o ++ "."

def successMsg (i o : String) : String :=
  "Successfully converted " ++ i ++ " to " ++ o

/-- The pure conversion pipeline applied to the input file contents:
parse with `DictReader`, serialize with `json.dump(..., indent=4)`;
`_csv.Error` from the reader propagates. -/
def convertContent (content : String) : Except CsvErr String :=
  (parseCsvRecords content).map (fun recs => dumpData (dictReaderAll recs))

/-- `main()`: argument-count check, read and fully parse the input file
(the `with` block closes it), then open the output file and write the
JSON.  `FileNotFoundError` and `PermissionError` are caught and
reported with `sys.exit(1)`; the `_csv.Error` raised by
`list(csv_reader)` on an over-limit field is NOT caught — the process
dies with a traceback on stderr (nothing on stdout), exit status 1,
before the output path is ever opened.  Exit 0 on success. -/
def mainRun (argv : List String) (fs : FS) : ProgResult :=
  match argv with
  | [_, inputCsv, outputJson] =>
    match fs.openRead inputCsv with
    | Except.error OpenErr.notFound =>
      ⟨1, [notFoundMsg inputCsv], fs, [FsEvent.readOpen inputCsv]⟩
    | Except.error OpenErr.permDenied =>
      ⟨1, [permDeniedMsg inputCsv outputJson], fs, [FsEvent.readOpen inputCsv]⟩
    | Except.ok content =>
      match convertContent content with
      | Except.error _ =>
        ⟨1, [], fs, [FsEvent.readOpen inputCsv]⟩
      | Except.ok out =>
        if fs.openWriteOk outputJson then
          ⟨0, [successMsg inputCsv outputJson],
           fs.writeFile outputJson out,
           [FsEvent.readOpen inputCsv, FsEvent.writeOpen outputJson]⟩
        else
          ⟨1, [permDeniedMsg inputCsv outputJson], fs,
           [FsEvent.readOpen inputCsv, FsEvent.writeOpen outputJson]⟩
  | _ => ⟨1, [usageMsg], fs, []⟩

/-! ## Well-formed CSV rendering (for stating round-trip properties) -/

/-- A character that needs no quoting in a CSV field. -/
def simpleChar (c : Char) : Prop := c ≠ ',' ∧ c ≠ '"' ∧ c ≠ '\n'

instance (c : Char) : Decidable (simpleChar c) := by
  unfold simpleChar; infer_instance

/-- A nonempty field of unquoted-safe characters within
`csv.field_size_limit()`; such fields render and re-parse verbatim. -/
def SimpleField (f : String) : Prop :=
  f ≠ "" ∧ f.data.length ≤ fieldSizeLimit ∧ ∀ c ∈ f.data, simpleChar c

instance (f : String) : Decidable (SimpleField f) := by
  unfold SimpleField; infer_instance

/-- Comma-join of the fields of one CSV line. -/
def joinFields (fields : List (List Char)) : List Char :=
  match fields with
  | [] => []
  | [f] => f
  | f :: g :: rest => f ++ ',' :: joinFields (g :: rest)

def renderLine (fields : List (List Char)) : List Char :=
  joinFields fields ++ ['\n']

def renderLines (rows : List (List (List Char))) : List Char :=
  (rows.map renderLine).flatten

/-- A well-formed CSV text with the given header and data rows, every
line `\n`-terminated. -/
def renderCsv (header : List String) (rows : List (List String)) : String :=
  String.mk (renderLines ((header :: rows).map (fun r => r.map String.data)))

/-- Doubling of quotes inside a quoted CSV field (RFC 4180 escaping). -/
def escQuote (cs : List Char) : List Char :=
  (cs.map (fun c => if c = '"' then ['"', '"'] else [c])).flatten

/-! ## Concrete scenario constants -/

/-- The spec's §8 concrete scenario input file. -/
def scenarioInput : String := "name,age\nAlice,30\nBob,25\n"

/-- Taken from the spec's words, for comparison with the code's output:
the expected-output text displayed in the spec's concrete scenario,
which puts one whole object per line inside the array. -/
def specScenarioDisplay : String :=
  "[\n    \x7b\"name\": \"Alice\", \"age\": \"30\"\x7d,\n    \x7b\"name\": \"Bob\", \"age\": \"25\"\x7d\n]"

/-- What `json.dump(..., indent=4)` actually prints for the scenario:
every key/value pair on its own line. -/
def scenarioActualOutput : String :=
  "[\n    \x7b\n        \"name\": \"Alice\",\n        \"age\": \"30\"\n    \x7d,\n    \x7b\n        \"name\": \"Bob\",\n        \"age\": \"25\"\n    \x7d\n]"

/-- Input whose second line starts an unterminated quoted field. -/
def malformedInput : String := "a\n\"b"

def malformedFS : FS := ⟨[("in.csv", malformedInput)], [], []⟩

def fsReadDenied : FS := ⟨[("in.csv", "a\nx\n")], ["in.csv"], []⟩

def fsWriteDenied : FS := ⟨[("in.csv", "a\nx\n")], [], ["out.json"]⟩

/-- A field one character over `csv.field_size_limit()`. -/
def bigField : List Char := List.replicate (fieldSizeLimit + 1) 'a'

def bigFieldStr : String := String.mk bigField

/-- A well-formed CSV (header `h`, one data row) whose single cell
exceeds the field size limit. -/
def bigInput : String := renderCsv ["h"] [[bigFieldStr]]

def bigFS : FS := ⟨[("in.csv", bigInput)], [], []⟩

/-- A single double-quoted field exceeding the field size limit. -/
def bigQuoted : String := String.mk ('"' :: (bigField ++ ['"', '\n']))

/-- A header-only CSV whose single header field exceeds the limit. -/
def bigHeaderFS : FS := ⟨[("hdr.csv", renderCsv [bigFieldStr] [])], [], []⟩

/-! ## Tokenizer lemmas -/

@[simp]
theorem mk_data (s : String) : String.mk s.data = s := rfl

theorem data_ne_nil {s : String} (h : s ≠ "") : s.data ≠ [] := by
  intro hd
  apply h
  cases s with
  | mk l => cases hd; rfl

/-- Once `_csv.Error` has been raised, processing is over: every
further character leaves the state unchanged. -/
theorem foldl_csvStep_err_sticky (l : List Char) (st : TokSt) (h : st.err = true) :
    List.foldl csvStep st l = st := by
  induction l with
  | nil => rfl
  | cons c t ih =>
    rw [List.foldl_cons, show csvStep st c = st by simp [csvStep, h], ih]

/-- Unquoted-safe characters within the field limit are simply
accumulated in `inField` mode. -/
theorem foldl_csvStep_inField (f : List Char) (h : ∀ c ∈ f, simpleChar c) :
    ∀ (recs : List (List (List Char))) (fields : List (List Char)) (cur : List Char),
    cur.length + f.length ≤ fieldSizeLimit →
    List.foldl csvStep ⟨recs, fields, cur, CsvMode.inField, false⟩ f
      = ⟨recs, fields, cur ++ f, CsvMode.inField, false⟩ := by
  induction f with
  | nil => intro recs fields cur _; simp
  | cons c t ih =>
    intro recs fields cur hlen
    have hc := h c (List.mem_cons_self _ _)
    have hcur : ¬ fieldSizeLimit ≤ cur.length := by
      simp only [List.length_cons] at hlen
      omega
    have hstep : csvStep ⟨recs, fields, cur, CsvMode.inField, false⟩ c
        = ⟨recs, fields, cur ++ [c], CsvMode.inField, false⟩ := by
      simp [csvStep, addChar, hc.1, hc.2.2, hcur]
    rw [List.foldl_cons, hstep,
        ih (fun d hd => h d (List.mem_cons_of_mem _ hd)) recs fields (cur ++ [c]) ?_]
    · simp
    · simp only [List.length_append, List.length_cons, List.length_nil] at hlen ⊢
      omega

/-- `_csv.Error`: a run of unquoted-safe characters that pushes the
current field beyond `field_size_limit` raises the error. -/
theorem foldl_csvStep_inField_err (f : List Char) (h : ∀ c ∈ f, simpleChar c) :
    ∀ recs fields cur, cur.length ≤ fieldSizeLimit →
    fieldSizeLimit < cur.length + f.length →
    (List.foldl csvStep ⟨recs, fields, cur, CsvMode.inField, false⟩ f).err = true := by
  induction f with
  | nil =>
    intro recs fields cur h1 h2
    exfalso
    simp only [List.length_nil] at h2
    omega
  | cons c t ih =>
    intro recs fields cur h1 h2
    have hc := h c (List.mem_cons_self _ _)
    by_cases hcur : fieldSizeLimit ≤ cur.length
    · have hstep : csvStep ⟨recs, fields, cur, CsvMode.inField, false⟩ c
          = ⟨recs, fields, cur, CsvMode.inField, true⟩ := by
        simp [csvStep, addChar, hc.1, hc.2.2, hcur]
      rw [List.foldl_cons, hstep, foldl_csvStep_err_sticky t _ rfl]
    · have hstep : csvStep ⟨recs, fields, cur, CsvMode.inField, false⟩ c
          = ⟨recs, fields, cur ++ [c], CsvMode.inField, false⟩ := by
        simp [csvStep, addChar, hc.1, hc.2.2, hcur]
      rw [List.foldl_cons, hstep]
      apply ih (fun d hd => h d (List.mem_cons_of_mem _ hd))
      · simp only [List.length_append, List.length_cons, List.length_nil]
        omega
      · simp only [List.length_append, List.length_cons, List.length_nil] at h2 ⊢
        omega

/-- Inside a quoted field, non-quote characters within the field limit
are accumulated verbatim (commas and newlines included). -/
theorem foldl_csvStep_inQuoted_ok (f : List Char) (h : ∀ c ∈ f, c ≠ '"') :
    ∀ recs fields cur, cur.length + f.length ≤ fieldSizeLimit →
    List.foldl csvStep ⟨recs, fields, cur, CsvMode.inQuoted, false⟩ f
      = ⟨recs, fields, cur ++ f, CsvMode.inQuoted, false⟩ := by
  induction f with
  | nil => intro recs fields cur _; simp
  | cons c t ih =>
    intro recs fields cur hlen
    have hc := h c (List.mem_cons_self _ _)
    have hcur : ¬ fieldSizeLimit ≤ cur.length := by
      simp only [List.length_cons] at hlen
      omega
    have hstep : csvStep ⟨recs, fields, cur, CsvMode.inQuoted, false⟩ c
        = ⟨recs, fields, cur ++ [c], CsvMode.inQuoted, false⟩ := by
      simp [csvStep, addChar, hc, hcur]
    rw [List.foldl_cons, hstep,
        ih (fun d hd => h d (List.mem_cons_of_mem _ hd)) recs fields (cur ++ [c]) ?_]
    · simp
    · simp only [List.length_append, List.length_cons, List.length_nil] at hlen ⊢
      omega

/-- `_csv.Error` inside a quoted field: non-quote characters beyond the
field limit raise the error. -/
theorem foldl_csvStep_inQuoted_err (f : List Char) (h : ∀ c ∈ f, c ≠ '"') :
    ∀ recs fields cur, cur.length ≤ fieldSizeLimit →
    fieldSizeLimit < cur.length + f.length →
    (List.foldl csvStep ⟨recs, fields, cur, CsvMode.inQuoted, false⟩ f).err = true := by
  induction f with
  | nil =>
    intro recs fields cur h1 h2
    exfalso
    simp only [List.length_nil] at h2
    omega
  | cons c t ih =>
    intro recs fields cur h1 h2
    have hc := h c (List.mem_cons_self _ _)
    by_cases hcur : fieldSizeLimit ≤ cur.length
    · have hstep : csvStep ⟨recs, fields, cur, CsvMode.inQuoted, false⟩ c
          = ⟨recs, fields, cur, CsvMode.inQuoted, true⟩ := by
        simp [csvStep, addChar, hc, hcur]
      rw [List.foldl_cons, hstep, foldl_csvStep_err_sticky t _ rfl]
    · have hstep : csvStep ⟨recs, fields, cur, CsvMode.inQuoted, false⟩ c
          = ⟨recs, fields, cur ++ [c], CsvMode.inQuoted, false⟩ := by
        simp [csvStep, addChar, hc, hcur]
      rw [List.foldl_cons, hstep]
      apply ih (fun d hd => h d (List.mem_cons_of_mem _ hd))
      · simp only [List.length_append, List.length_cons, List.length_nil]
        omega
      · simp only [List.length_append, List.length_cons, List.length_nil] at h2 ⊢
        omega

/-- A nonempty unquoted-safe field within the limit, consumed from the
start of a field (or of a record), ends in `inField` mode holding
exactly that field. -/
theorem foldl_csvStep_startField (f : List Char) (hne : f ≠ [])
    (h : ∀ c ∈ f, simpleChar c) (hflen : f.length ≤ fieldSizeLimit) (m : CsvMode)
    (hm : m = CsvMode.startRecord ∨ m = CsvMode.startField) :
    ∀ recs fields,
    List.foldl csvStep ⟨recs, fields, [], m, false⟩ f
      = ⟨recs, fields, f, CsvMode.inField, false⟩ := by
  match f, hne with
  | c :: t, _ =>
    intro recs fields
    have hc := h c (List.mem_cons_self _ _)
    have hlim : fieldSizeLimit ≠ 0 := by decide
    have hstep : csvStep ⟨recs, fields, [], m, false⟩ c
        = ⟨recs, fields, [c], CsvMode.inField, false⟩ := by
      rcases hm with rfl | rfl
      · simp [csvStep, addChar, hc.1, hc.2.1, hc.2.2, hlim]
      · simp [csvStep, addChar, hc.1, hc.2.1, hc.2.2, hlim]
    rw [List.foldl_cons, hstep,
        foldl_csvStep_inField t (fun d hd => h d (List.mem_cons_of_mem _ hd))
          recs fields [c] ?_]
    · simp
    · simp only [List.length_cons, List.length_nil] at hflen ⊢
      omega

/-- Consuming one rendered CSV line appends exactly its field list as
one record and returns to `startRecord`. -/
theorem foldl_csvStep_line (fs : List (List Char)) (hne : fs ≠ [])
    (hsf : ∀ f ∈ fs, f ≠ [] ∧ f.length ≤ fieldSizeLimit ∧ ∀ c ∈ f, simpleChar c) :
    ∀ (m : CsvMode), (m = CsvMode.startRecord ∨ m = CsvMode.startField) →
    ∀ recs F,
    List.foldl csvStep ⟨recs, F, [], m, false⟩ (renderLine fs)
      = ⟨recs ++ [F ++ fs], [], [], CsvMode.startRecord, false⟩ := by
  induction fs with
  | nil => cases hne rfl
  | cons f t ih =>
    intro m hm recs F
    have hf := hsf f (List.mem_cons_self _ _)
    cases t with
    | nil =>
      have : renderLine [f] = f ++ ['\n'] := by simp [renderLine, joinFields]
      rw [this, List.foldl_append, foldl_csvStep_startField f hf.1 hf.2.2 hf.2.1 m hm]
      simp [csvStep]
    | cons g t' =>
      have : renderLine (f :: g :: t') = f ++ (',' :: renderLine (g :: t')) := by
        simp [renderLine, joinFields]
      rw [this, List.foldl_append, foldl_csvStep_startField f hf.1 hf.2.2 hf.2.1 m hm,
          List.foldl_cons]
      have hstep : csvStep ⟨recs, F, f, CsvMode.inField, false⟩ ','
          = ⟨recs, F ++ [f], [], CsvMode.startField, false⟩ := by
        simp [csvStep]
      rw [hstep,
          ih (by simp) (fun x hx => hsf x (List.mem_cons_of_mem _ hx))
            CsvMode.startField (Or.inr rfl) recs (F ++ [f])]
      simp

/-- Consuming a block of rendered lines appends exactly those records. -/
theorem foldl_csvStep_lines (rows : List (List (List Char)))
    (h : ∀ r ∈ rows, r ≠ []
      ∧ ∀ f ∈ r, f ≠ [] ∧ f.length ≤ fieldSizeLimit ∧ ∀ c ∈ f, simpleChar c) :
    ∀ recs,
    List.foldl csvStep ⟨recs, [], [], CsvMode.startRecord, false⟩ (renderLines rows)
      = ⟨recs ++ rows, [], [], CsvMode.startRecord, false⟩ := by
  induction rows with
  | nil => intro recs; simp [renderLines]
  | cons r t ih =>
    intro recs
    have hr := h r (List.mem_cons_self _ _)
    have : renderLines (r :: t) = renderLine r ++ renderLines t := by
      simp [renderLines]
    rw [this, List.foldl_append,
        foldl_csvStep_line r hr.1 hr.2 CsvMode.startRecord (Or.inl rfl) recs [],
        ih (fun x hx => h x (List.mem_cons_of_mem _ hx))]
    simp

/-- Tokenizing a rendered well-formed CSV recovers exactly its records
(no field reaches the size limit, so no `_csv.Error`). -/
theorem tokenize_renderLines (rows : List (List (List Char)))
    (h : ∀ r ∈ rows, r ≠ []
      ∧ ∀ f ∈ r, f ≠ [] ∧ f.length ≤ fieldSizeLimit ∧ ∀ c ∈ f, simpleChar c) :
    tokenize (renderLines rows) = Except.ok rows := by
  rw [tokenize, tokInit, foldl_csvStep_lines rows h []]
  simp [csvFinish]

/-- `csv.reader` round-trip at the `String` level. -/
theorem parseCsvRecords_renderCsv (header : List String) (rows : List (List String))
    (hh : header ≠ []) (hhs : ∀ f ∈ header, SimpleField f)
    (hrne : ∀ r ∈ rows, r ≠ []) (hrs : ∀ r ∈ rows, ∀ f ∈ r, SimpleField f) :
    parseCsvRecords (renderCsv header rows) = Except.ok (header :: rows) := by
  rw [parseCsvRecords, renderCsv]
  rw [show (String.mk (renderLines ((header :: rows).map (fun r => r.map String.data)))).data
      = renderLines ((header :: rows).map (fun r => r.map String.data)) from rfl]
  rw [tokenize_renderLines]
  · simp [Except.map, List.map_map, Function.comp_def]
  · intro r hr
    rcases List.mem_map.1 hr with ⟨r0, hr0, rfl⟩
    have hr0' : r0 = header ∨ r0 ∈ rows := by simpa using hr0
    have hne : r0 ≠ [] := by
      rcases hr0' with rfl | hmem
      · exact hh
      · exact hrne r0 hmem
    have hfields : ∀ f ∈ r0, SimpleField f := by
      rcases hr0' with rfl | hmem
      · exact hhs
      · exact hrs r0 hmem
    refine ⟨by simpa using hne, ?_⟩
    intro f hf
    rcases List.mem_map.1 hf with ⟨s, hs, rfl⟩
    exact ⟨data_ne_nil (hfields s hs).1, (hfields s hs).2.1, (hfields s hs).2.2⟩

/-! ## Dict lemmas -/

/-- Assigning a fresh key appends it (Python dict insertion order). -/
theorem dictInsert_of_not_mem (d : Row) (k : Option String) (v : RowVal)
    (h : ∀ e ∈ d, e.1 ≠ k) : dictInsert d k v = d ++ [(k, v)] := by
  have hany : d.any (fun kv => kv.1 = k) = false := by
    simp only [List.any_eq_false, decide_eq_true_eq]
    exact h
  simp [dictInsert, hany]

/-- Building a dict from pairs with pairwise-distinct keys keeps the
pairs verbatim, after any accumulator with disjoint keys. -/
theorem foldl_dictInsert_append (l : List (Option String × RowVal)) :
    ∀ acc : Row, (l.map Prod.fst).Nodup →
    (∀ e ∈ acc, ∀ k ∈ l.map Prod.fst, e.1 ≠ k) →
    l.foldl (fun d kv => dictInsert d kv.1 kv.2) acc = acc ++ l := by
  induction l with
  | nil => intro acc _ _; simp
  | cons kv t ih =>
    intro acc hnd hdisj
    have h1 : ∀ e ∈ acc, e.1 ≠ kv.1 := fun e he => hdisj e he kv.1 (by simp)
    rw [List.foldl_cons, dictInsert_of_not_mem acc kv.1 kv.2 h1,
        ih (acc ++ [(kv.1, kv.2)]) (by simpa using hnd.of_cons) ?_]
    · simp
    · intro e he k hk
      rcases List.mem_append.1 he with hacc | hnew
      · exact hdisj e hacc k (by simp [hk])
      · have : e = (kv.1, kv.2) := by simpa using hnew
        subst this
        have hcons : (kv.1 :: t.map Prod.fst).Nodup := by simpa using hnd
        have hnotin : kv.1 ∉ t.map Prod.fst := (List.nodup_cons.1 hcons).1
        intro hcontra
        exact hnotin (hcontra ▸ hk)

theorem dictOfPairs_eq_self (l : List (Option String × RowVal))
    (h : (l.map Prod.fst).Nodup) : dictOfPairs l = l := by
  rw [dictOfPairs, foldl_dictInsert_append l [] h (by simp)]
  simp

/-- First components of a zip whose right list is no longer than the
left one. -/
theorem zip_map_fst_of_le :
    ∀ (l1 : List String) (l2 : List String), l2.length ≤ l1.length →
    (l1.zip l2).map Prod.fst = l1.take l2.length := by
  intro l1 l2
  induction l2 generalizing l1 with
  | nil => intro _; simp
  | cons b t ih =>
    intro hle
    cases l1 with
    | nil => simp at hle
    | cons a s =>
      simp only [List.zip_cons_cons, List.map_cons, List.length_cons, List.take_succ_cons]
      rw [ih s (by simpa using hle)]

/-- `restval` padding: assigning `None` to each leftover header key in
order appends those keys (all fresh, keys pairwise distinct). -/
theorem foldl_restval (ks : List String) :
    ∀ acc : Row, ks.Nodup → (∀ e ∈ acc, ∀ k ∈ ks, e.1 ≠ some k) →
    ks.foldl (fun e k => dictInsert e (some k) RowVal.vnone) acc
      = acc ++ ks.map (fun k => (some k, RowVal.vnone)) := by
  induction ks with
  | nil => intro acc _ _; simp
  | cons k t ih =>
    intro acc hnd hdisj
    have h1 : ∀ e ∈ acc, e.1 ≠ some k := fun e he => hdisj e he k (by simp)
    rw [List.foldl_cons, dictInsert_of_not_mem acc (some k) RowVal.vnone h1,
        ih (acc ++ [(some k, RowVal.vnone)]) (List.nodup_cons.1 hnd).2 ?_]
    · simp
    · intro e he k' hk'
      rcases List.mem_append.1 he with hacc | hnew
      · exact hdisj e hacc k' (by simp [hk'])
      · have : e = (some k, RowVal.vnone) := by simpa using hnew
        subst this
        have hkk' : k ≠ k' := by
          intro hcontra
          exact (List.nodup_cons.1 hnd).1 (hcontra ▸ hk')
        simpa using hkk'

/-- `DictReader` row for a record no longer than the header: the
zipped cells followed by `None`-padded leftover columns. -/
theorem makeRow_of_le (header : List String) (r : List String)
    (hnd : header.Nodup) (hle : r.length ≤ header.length) :
    makeRow header r
      = (header.zip r).map (fun p => (some p.1, RowVal.vstr p.2))
        ++ (header.drop r.length).map (fun k => (some k, RowVal.vnone)) := by
  have hfst : ((header.zip r).map (fun p => (some p.1, RowVal.vstr p.2))).map Prod.fst
      = (header.take r.length).map some := by
    rw [show ((header.zip r).map (fun p => (some p.1, RowVal.vstr p.2))).map Prod.fst
        = ((header.zip r).map Prod.fst).map some by simp [List.map_map, Function.comp_def]]
    rw [zip_map_fst_of_le header r hle]
  have hnodup_take : (header.take r.length).Nodup := hnd.sublist (List.take_sublist _ _)
  have hd : dictOfPairs ((header.zip r).map (fun p => (some p.1, RowVal.vstr p.2)))
      = (header.zip r).map (fun p => (some p.1, RowVal.vstr p.2)) := by
    apply dictOfPairs_eq_self
    rw [hfst]
    exact hnodup_take.map (Option.some_injective _)
  have hsplit := List.take_append_drop r.length header
  have hdisj : (header.take r.length).Disjoint (header.drop r.length) := by
    have := List.nodup_append.1 (hsplit ▸ hnd)
    exact this.2.2
  rw [makeRow, if_neg (by omega)]
  simp only [hd]
  rw [foldl_restval (header.drop r.length)
      _ (hnd.sublist (List.drop_sublist _ _)) ?_]
  intro e he k hk
  have : e.1 ∈ (header.take r.length).map some := by
    rw [← hfst]
    exact List.mem_map_of_mem Prod.fst he
  rcases List.mem_map.1 this with ⟨k0, hk0, hek⟩
  rw [← hek]
  intro hcontra
  have : k0 = k := by simpa using hcontra
  exact hdisj hk0 (this ▸ hk)

/-- `DictReader` row for a record of exactly header length. -/
theorem makeRow_of_eq (header : List String) (r : List String)
    (hnd : header.Nodup) (hlen : r.length = header.length) :
    makeRow header r = (header.zip r).map (fun p => (some p.1, RowVal.vstr p.2)) := by
  rw [makeRow_of_le header r hnd (le_of_eq hlen), hlen]
  simp

/-! ## Quoted-field lemmas -/

/-- Inside a quoted field, the quote-doubled rendering of arbitrary
text (commas, newlines and quotes included) within the field limit is
accumulated verbatim (a doubled quote performs exactly one
`parse_add_char`). -/
theorem foldl_csvStep_escQuote (cs : List Char) :
    ∀ recs fields cur, cur.length + cs.length ≤ fieldSizeLimit →
    List.foldl csvStep ⟨recs, fields, cur, CsvMode.inQuoted, false⟩ (escQuote cs)
      = ⟨recs, fields, cur ++ cs, CsvMode.inQuoted, false⟩ := by
  induction cs with
  | nil => intro recs fields cur _; simp [escQuote]
  | cons c t ih =>
    intro recs fields cur hlen
    have hcur : ¬ fieldSizeLimit ≤ cur.length := by
      simp only [List.length_cons] at hlen
      omega
    have hlen' : (cur ++ [c]).length + t.length ≤ fieldSizeLimit := by
      simp only [List.length_append, List.length_cons, List.length_nil] at hlen ⊢
      omega
    by_cases hc : c = '"'
    · subst hc
      have he : escQuote ('"' :: t) = '"' :: '"' :: escQuote t := by
        simp [escQuote]
      have h1 : csvStep ⟨recs, fields, cur, CsvMode.inQuoted, false⟩ '"'
          = ⟨recs, fields, cur, CsvMode.quoteInQuoted, false⟩ := by simp [csvStep]
      have h2 : csvStep ⟨recs, fields, cur, CsvMode.quoteInQuoted, false⟩ '"'
          = ⟨recs, fields, cur ++ ['"'], CsvMode.inQuoted, false⟩ := by
        simp [csvStep, addChar, hcur]
      rw [he, List.foldl_cons, h1, List.foldl_cons, h2, ih recs fields (cur ++ ['"']) hlen']
      simp
    · have he : escQuote (c :: t) = c :: escQuote t := by
        simp [escQuote, hc]
      have h1 : csvStep ⟨recs, fields, cur, CsvMode.inQuoted, false⟩ c
          = ⟨recs, fields, cur ++ [c], CsvMode.inQuoted, false⟩ := by
        simp [csvStep, addChar, hc, hcur]
      rw [he, List.foldl_cons, h1, ih recs fields (cur ++ [c]) hlen']
      simp

/-! ## `main` path helpers -/

theorem mainRun_ok (fs : FS) (prog inputCsv outputJson content out : String)
    (hr : fs.openRead inputCsv = Except.ok content)
    (hc : convertContent content = Except.ok out)
    (hw : fs.openWriteOk outputJson = true) :
    mainRun [prog, inputCsv, outputJson] fs
      = ⟨0, [successMsg inputCsv outputJson],
         fs.writeFile outputJson out,
         [FsEvent.readOpen inputCsv, FsEvent.writeOpen outputJson]⟩ := by
  simp [mainRun, hr, hc, hw]

theorem mainRun_parseErr (fs : FS) (prog inputCsv outputJson content : String)
    (e : CsvErr) (hr : fs.openRead inputCsv = Except.ok content)
    (hc : convertContent content = Except.error e) :
    mainRun [prog, inputCsv, outputJson] fs
      = ⟨1, [], fs, [FsEvent.readOpen inputCsv]⟩ := by
  simp [mainRun, hr, hc]

theorem mainRun_notFound (fs : FS) (prog inputCsv outputJson : String)
    (h : fs.openRead inputCsv = Except.error OpenErr.notFound) :
    mainRun [prog, inputCsv, outputJson] fs
      = ⟨1, [notFoundMsg inputCsv], fs, [FsEvent.readOpen inputCsv]⟩ := by
  simp [mainRun, h]

theorem mainRun_readDenied (fs : FS) (prog inputCsv outputJson : String)
    (h : fs.openRead inputCsv = Except.error OpenErr.permDenied) :
    mainRun [prog, inputCsv, outputJson] fs
      = ⟨1, [permDeniedMsg inputCsv outputJson], fs, [FsEvent.readOpen inputCsv]⟩ := by
  simp [mainRun, h]

theorem mainRun_writeDenied (fs : FS) (prog inputCsv outputJson content out : String)
    (hr : fs.openRead inputCsv = Except.ok content)
    (hc : convertContent content = Except.ok out)
    (hw : fs.openWriteOk outputJson = false) :
    mainRun [prog, inputCsv, outputJson] fs
      = ⟨1, [permDeniedMsg inputCsv outputJson], fs,
         [FsEvent.readOpen inputCsv, FsEvent.writeOpen outputJson]⟩ := by
  simp [mainRun, hr, hc, hw]


/-! ## Claims -/

/-- C1 counterexample: a well-formed CSV (header `h`, one data row)
whose single cell is one character over `csv.field_size_limit` makes
the reader raise `_csv.Error`; the exception is not caught, so the run
dies with exit status 1, nothing on stdout and no output file — not
with a JSON array of one object. -/
theorem over_limit_roundtrip_fails_cex :
    convertContent bigInput = Except.error CsvErr.fieldTooLarge
    ∧ (mainRun ["csv_to_json.py", "in.csv", "out.json"] bigFS).exitCode = 1
    ∧ (mainRun ["csv_to_json.py", "in.csv", "out.json"] bigFS).stdout = []
    ∧ (mainRun ["csv_to_json.py", "in.csv", "out.json"] bigFS).fs.lookupFile "out.json"
      = none := by
  have hsimple : ∀ c ∈ List.replicate fieldSizeLimit 'a', simpleChar c := by
    intro c hc
    rw [List.eq_of_mem_replicate hc]
    decide
  have herr : (List.foldl csvStep ⟨[[['h']]], [], ['a'], CsvMode.inField, false⟩
      (List.replicate fieldSizeLimit 'a')).err = true := by
    apply foldl_csvStep_inField_err (List.replicate fieldSizeLimit 'a') hsimple
    · decide
    · rw [List.length_replicate]
      decide
  have hdata : bigInput.data
      = renderLine [['h']] ++ ('a' :: (List.replicate fieldSizeLimit 'a' ++ ['\n'])) := by
    have h0 : bigInput.data
        = renderLine [['h']] ++ ((('a' :: List.replicate fieldSizeLimit 'a') ++ ['\n']) ++ []) :=
      rfl
    simp only [List.append_nil, List.cons_append] at h0
    exact h0
  have hstep0 : csvStep ⟨[[['h']]], [], [], CsvMode.startRecord, false⟩ 'a'
      = ⟨[[['h']]], [], ['a'], CsvMode.inField, false⟩ := rfl
  have hfold : (List.foldl csvStep tokInit bigInput.data).err = true := by
    rw [hdata, show tokInit = (⟨[], [], [], CsvMode.startRecord, false⟩ : TokSt) from rfl,
        List.foldl_append,
        foldl_csvStep_line [['h']] (by simp) (by decide) CsvMode.startRecord (Or.inl rfl) [] []]
    simp only [List.nil_append]
    rw [List.foldl_cons, hstep0, List.foldl_append,
        foldl_csvStep_err_sticky ['\n'] _ herr]
    exact herr
  have hconv : convertContent bigInput = Except.error CsvErr.fieldTooLarge := by
    simp only [convertContent, parseCsvRecords, tokenize, hfold]
    rfl
  have hread : bigFS.openRead "in.csv" = Except.ok bigInput := rfl
  have hrun := mainRun_parseErr bigFS "csv_to_json.py" "in.csv" "out.json" bigInput
    CsvErr.fieldTooLarge hread hconv
  exact ⟨hconv, by rw [hrun], by rw [hrun], by rw [hrun]; rfl⟩

/-- C1 (amended): for every well-formed CSV — nonempty header of
distinct unquoted-safe column names, every data row of exactly header
length, every field within `csv.field_size_limit` — the parsed dataset
is an array of exactly `rows.length` objects in input row order; the
i-th object has exactly the keys `h1..hn` in header order mapping
`hj` to the row's j-th cell as a string; the serialized output is
`json.dump` of exactly that dataset. -/
theorem csv_roundtrip_fidelity (header : List String) (rows : List (List String))
    (hh : header ≠ []) (hnd : header.Nodup)
    (hhs : ∀ f ∈ header, SimpleField f)
    (hrs : ∀ r ∈ rows, ∀ f ∈ r, SimpleField f)
    (hlen : ∀ r ∈ rows, r.length = header.length) :
    parseCsvRecords (renderCsv header rows) = Except.ok (header :: rows)
    ∧ dictReaderAll (header :: rows)
      = rows.map (fun r => (header.zip r).map (fun p => (some p.1, RowVal.vstr p.2)))
    ∧ (dictReaderAll (header :: rows)).length = rows.length
    ∧ (∀ row ∈ dictReaderAll (header :: rows), row.map Prod.fst = header.map some)
    ∧ convertContent (renderCsv header rows)
      = Except.ok (dumpData (rows.map (fun r => (header.zip r).map
          (fun p => (some p.1, RowVal.vstr p.2))))) := by
  have hrne : ∀ r ∈ rows, r ≠ [] := by
    intro r hr hcontra
    have hl := hlen r hr
    rw [hcontra] at hl
    simp only [List.length_nil] at hl
    exact hh (List.length_eq_zero.1 hl.symm)
  have hparse := parseCsvRecords_renderCsv header rows hh hhs hrne hrs
  have hmain : dictReaderAll (header :: rows)
      = rows.map (fun r => (header.zip r).map (fun p => (some p.1, RowVal.vstr p.2))) := by
    simp only [dictReaderAll]
    have hfilter : rows.filter (fun r => !r.isEmpty) = rows := by
      rw [List.filter_eq_self]
      intro r hr
      simpa [List.isEmpty_iff] using hrne r hr
    rw [hfilter]
    apply List.map_congr_left
    intro r hr
    exact makeRow_of_eq header r hnd (hlen r hr)
  refine ⟨hparse, hmain, by rw [hmain]; simp, ?_, ?_⟩
  · intro row hrow
    rw [hmain] at hrow
    rcases List.mem_map.1 hrow with ⟨r, hr, rfl⟩
    rw [show ((header.zip r).map (fun p => (some p.1, RowVal.vstr p.2))).map Prod.fst
        = ((header.zip r).map Prod.fst).map some by simp [List.map_map, Function.comp_def]]
    rw [zip_map_fst_of_le header r (le_of_eq (hlen r hr)), hlen r hr, List.take_length]
  · simp only [convertContent]
    rw [hparse]
    simp only [Except.map]
    rw [hmain]

/-- Witness for C1 at the spec's concrete scenario data. -/
theorem csv_roundtrip_fidelity_witness :
    parseCsvRecords (renderCsv ["name", "age"] [["Alice", "30"], ["Bob", "25"]])
      = Except.ok [["name", "age"], ["Alice", "30"], ["Bob", "25"]]
    ∧ dictReaderAll [["name", "age"], ["Alice", "30"], ["Bob", "25"]]
      = [[(some "name", RowVal.vstr "Alice"), (some "age", RowVal.vstr "30")],
         [(some "name", RowVal.vstr "Bob"), (some "age", RowVal.vstr "25")]] := by
  have h := csv_roundtrip_fidelity ["name", "age"] [["Alice", "30"], ["Bob", "25"]]
    (by decide) (by decide) (by decide) (by decide) (by decide)
  exact ⟨h.1, by rw [h.2.1]; rfl⟩

/-- C2 counterexample: a double-quoted field one character over
`csv.field_size_limit` is not parsed as a single cell — the reader
raises `_csv.Error` instead. -/
theorem over_limit_quoted_field_cex :
    parseCsvRecords bigQuoted = Except.error CsvErr.fieldTooLarge := by
  have hbq : ∀ c ∈ bigField, c ≠ '"' := by
    intro c hc
    rw [List.eq_of_mem_replicate hc]
    decide
  have hbl : bigField.length = fieldSizeLimit + 1 := by
    simp only [bigField, List.length_replicate]
  have herrq : (List.foldl csvStep ⟨[], [], [], CsvMode.inQuoted, false⟩ bigField).err
      = true := by
    apply foldl_csvStep_inQuoted_err bigField hbq [] [] []
    · decide
    · rw [hbl]
      decide
  have hfoldq : (List.foldl csvStep tokInit bigQuoted.data).err = true := by
    rw [show bigQuoted.data = '"' :: (bigField ++ ['"', '\n']) from rfl,
        List.foldl_cons,
        show csvStep tokInit '"' = ⟨[], [], [], CsvMode.inQuoted, false⟩ from rfl,
        List.foldl_append, foldl_csvStep_err_sticky ['"', '\n'] _ herrq]
    exact herrq
  simp only [parseCsvRecords, tokenize, hfoldq]
  rfl

/-- C2 (amended): a double-quoted field whose contents (arbitrary text
with commas, newlines and doubled quotes, within the field size limit)
are rendered with RFC 4180 quote doubling is tokenized as a single
record holding that single cell; in particular `"a,b"` yields the one
cell `a,b`, also amid other columns and after a header line. -/
theorem quoting_single_cell (cs : List Char) (hlen : cs.length ≤ fieldSizeLimit) :
    tokenize ('"' :: (escQuote cs ++ ['"', '\n'])) = Except.ok [[cs]]
    ∧ parseCsvRecords "\"a,b\"\n" = Except.ok [["a,b"]]
    ∧ parseCsvRecords "h1,h2\n\"a,b\",c\n" = Except.ok [["h1", "h2"], ["a,b", "c"]] := by
  refine ⟨?_, by decide, by decide⟩
  have hfold : List.foldl csvStep tokInit ('"' :: (escQuote cs ++ ['"', '\n']))
      = ⟨[[cs]], [], [], CsvMode.startRecord, false⟩ := by
    rw [List.foldl_cons,
        show csvStep tokInit '"' = ⟨[], [], [], CsvMode.inQuoted, false⟩ from rfl,
        List.foldl_append,
        foldl_csvStep_escQuote cs [] [] [] (by simpa using hlen)]
    simp only [List.nil_append]
    rw [List.foldl_cons,
        show csvStep ⟨[], [], cs, CsvMode.inQuoted, false⟩ '"'
          = ⟨[], [], cs, CsvMode.quoteInQuoted, false⟩ from rfl,
        List.foldl_cons,
        show csvStep ⟨[], [], cs, CsvMode.quoteInQuoted, false⟩ '\n'
          = ⟨[[cs]], [], [], CsvMode.startRecord, false⟩ from rfl,
        List.foldl_nil]
  simp only [tokenize, hfold]
  rfl

/-- Witness for C2 at the spec's `a,b` example. -/
theorem quoting_single_cell_witness :
    tokenize ('"' :: (escQuote ['a', ',', 'b'] ++ ['"', '\n']))
      = Except.ok [[['a', ',', 'b']]] :=
  (quoting_single_cell ['a', ',', 'b'] (by decide)).1

/-- C3 counterexample: on the spec's concrete scenario the program's
output text is not the text displayed in the spec (the displayed text
puts one whole object per line; `indent=4` puts every key/value pair
on its own line). -/
theorem scenario_output_ne_spec_display :
    convertContent scenarioInput ≠ Except.ok specScenarioDisplay := by decide

/-- C3 (amended): on the spec's concrete scenario the program writes
the same JSON array of objects, serialized in `json.dump(indent=4)`
style — each key/value pair on its own line — and the parsed dataset
is exactly the displayed one. -/
theorem scenario_actual_output :
    convertContent scenarioInput = Except.ok scenarioActualOutput
    ∧ parseCsvRecords scenarioInput
      = Except.ok [["name", "age"], ["Alice", "30"], ["Bob", "25"]]
    ∧ dictReaderAll [["name", "age"], ["Alice", "30"], ["Bob", "25"]]
      = [[(some "name", RowVal.vstr "Alice"), (some "age", RowVal.vstr "30")],
         [(some "name", RowVal.vstr "Bob"), (some "age", RowVal.vstr "25")]] :=
  ⟨rfl, rfl, rfl⟩

/-- C4: any invocation whose argument vector (program name included)
does not have exactly 3 entries prints only the usage message, exits
with status 1, leaves the file system unchanged and attempts no file
open. -/
theorem arg_count_validation (argv : List String) (fs : FS) (h : argv.length ≠ 3) :
    mainRun argv fs = ⟨1, [usageMsg], fs, []⟩ := by
  match argv with
  | [] => rfl
  | [_] => rfl
  | [_, _] => rfl
  | [_, _, _] => exact absurd rfl h
  | _ :: _ :: _ :: _ :: _ => rfl

/-- Witness for C4: one argument only. -/
theorem arg_count_validation_witness :
    mainRun ["csv_to_json.py"] ⟨[("data.csv", "a\n")], [], []⟩
      = ⟨1, [usageMsg], ⟨[("data.csv", "a\n")], [], []⟩, []⟩ :=
  arg_count_validation ["csv_to_json.py"] ⟨[("data.csv", "a\n")], [], []⟩ (by decide)

/-- C5: when the input path does not exist the program prints the
not-found message, exits with status 1, and the file system is
untouched (in particular the output path is never opened or created). -/
theorem missing_input_no_output (fs : FS) (prog inputCsv outputJson : String)
    (h : fs.openRead inputCsv = Except.error OpenErr.notFound) :
    mainRun [prog, inputCsv, outputJson] fs
      = ⟨1, [notFoundMsg inputCsv], fs, [FsEvent.readOpen inputCsv]⟩ :=
  mainRun_notFound fs prog inputCsv outputJson h

/-- Witness for C5: converting from an absent path. -/
theorem missing_input_no_output_witness :
    mainRun ["csv_to_json.py", "absent.csv", "out.json"] ⟨[], [], []⟩
      = ⟨1, [notFoundMsg "absent.csv"], ⟨[], [], []⟩, [FsEvent.readOpen "absent.csv"]⟩ :=
  missing_input_no_output ⟨[], [], []⟩ "csv_to_json.py" "absent.csv" "out.json" (by decide)

/-- C6 counterexample: a data row with more fields than the header
does NOT expose exactly the header's key set — the extra cells are
bucketed under the sentinel key `None` (`restkey`) as a list. -/
theorem long_row_extra_key_cex :
    parseCsvRecords "a\nx,y\n" = Except.ok [["a"], ["x", "y"]]
    ∧ dictReaderAll [["a"], ["x", "y"]]
      = [[(some "a", RowVal.vstr "x"), (none, RowVal.vlist ["y"])]]
    ∧ (dictReaderAll [["a"], ["x", "y"]]).map (fun row => row.map Prod.fst)
      ≠ [["a"].map some] := by decide

/-- C6 (amended): every parsed data row with at most as many fields as
the (duplicate-free) header exposes exactly the header's key set in
header order, present cells as strings, and absent trailing columns
present with the `None` placeholder; rows with more fields than the
header additionally carry the `restkey` sentinel. -/
theorem row_key_set_of_le (header : List String) (recs : List (List String))
    (hnd : header.Nodup) (hle : ∀ r ∈ recs, r.length ≤ header.length) :
    dictReaderAll (header :: recs)
      = (recs.filter (fun r => !r.isEmpty)).map
          (fun r => (header.zip r).map (fun p => (some p.1, RowVal.vstr p.2))
            ++ (header.drop r.length).map (fun k => (some k, RowVal.vnone)))
    ∧ ∀ row ∈ dictReaderAll (header :: recs), row.map Prod.fst = header.map some := by
  have hmain : dictReaderAll (header :: recs)
      = (recs.filter (fun r => !r.isEmpty)).map
          (fun r => (header.zip r).map (fun p => (some p.1, RowVal.vstr p.2))
            ++ (header.drop r.length).map (fun k => (some k, RowVal.vnone))) := by
    simp only [dictReaderAll]
    apply List.map_congr_left
    intro r hr
    exact makeRow_of_le header r hnd (hle r (List.mem_of_mem_filter hr))
  refine ⟨hmain, ?_⟩
  intro row hrow
  rw [hmain] at hrow
  rcases List.mem_map.1 hrow with ⟨r, hr, rfl⟩
  have hr' := hle r (List.mem_of_mem_filter hr)
  rw [List.map_append]
  rw [show ((header.zip r).map (fun p => (some p.1, RowVal.vstr p.2))).map Prod.fst
      = ((header.zip r).map Prod.fst).map some by simp [List.map_map, Function.comp_def]]
  rw [zip_map_fst_of_le header r hr']
  rw [show ((header.drop r.length).map (fun k => (some k, RowVal.vnone))).map Prod.fst
      = (header.drop r.length).map some by simp [List.map_map, Function.comp_def]]
  rw [← List.map_append, List.take_append_drop]

/-- Witness for C6: a short row is padded with the placeholder. -/
theorem row_key_set_of_le_witness :
    dictReaderAll [["a", "b"], ["x"]]
      = [[(some "a", RowVal.vstr "x"), (some "b", RowVal.vnone)]] := by
  have h := row_key_set_of_le ["a", "b"] [["x"]] (by decide) (by decide)
  rw [h.1]
  rfl

/-- C7 counterexample: on an input whose last line is an unterminated
quoted field the program does not fail — it exits with status 0,
prints the success message and writes well-formed JSON (the tokenizer
silently closes the field at end of input; no `ParseError` exists). -/
theorem malformed_csv_succeeds_cex :
    (mainRun ["csv_to_json.py", "in.csv", "out.json"] malformedFS).exitCode = 0
    ∧ (mainRun ["csv_to_json.py", "in.csv", "out.json"] malformedFS).stdout
      = [successMsg "in.csv" "out.json"]
    ∧ (mainRun ["csv_to_json.py", "in.csv", "out.json"] malformedFS).fs.lookupFile "out.json"
      = some "[\n    \x7b\n        \"a\": \"b\"\n    \x7d\n]" := by decide

/-- C7 (amended): an unterminated quoted field is not an error: the
non-strict tokenizer silently closes the pending field (of any content
without quotes, within the field size limit) at end of input and emits
it as a single cell, and on the concrete unterminated-quote input the
whole conversion succeeds, producing well-formed JSON; the program has
no `ParseError` of its own — the only parse failure it can hit is
csv's internal field-size error, and that one is not caught. -/
theorem unterminated_quote_lenient (cs : List Char) (hq : ∀ c ∈ cs, c ≠ '"')
    (hlen : cs.length ≤ fieldSizeLimit) :
    tokenize ('"' :: cs) = Except.ok [[cs]]
    ∧ parseCsvRecords malformedInput = Except.ok [["a"], ["b"]]
    ∧ convertContent malformedInput
      = Except.ok "[\n    \x7b\n        \"a\": \"b\"\n    \x7d\n]" := by
  refine ⟨?_, by decide, by decide⟩
  have hfold : List.foldl csvStep tokInit ('"' :: cs)
      = ⟨[], [], cs, CsvMode.inQuoted, false⟩ := by
    rw [List.foldl_cons,
        show csvStep tokInit '"' = ⟨[], [], [], CsvMode.inQuoted, false⟩ from rfl,
        foldl_csvStep_inQuoted_ok cs hq [] [] [] (by simpa using hlen)]
    simp
  simp only [tokenize, hfold]
  rfl

/-- Witness for C7 at a one-character unterminated quoted field. -/
theorem unterminated_quote_lenient_witness :
    tokenize ['"', 'b'] = Except.ok [[['b']]] :=
  (unterminated_quote_lenient ['b'] (by decide) (by decide)).1

/-- C8 counterexample: the permission-denied message is the very same
line whether read access to the input or write access to the output
was refused — it names both paths and so does not identify which path
failed (the paths being distinct). -/
theorem perm_denied_message_ambiguous_cex :
    (mainRun ["csv_to_json.py", "in.csv", "out.json"] fsReadDenied).stdout
      = (mainRun ["csv_to_json.py", "in.csv", "out.json"] fsWriteDenied).stdout
    ∧ (mainRun ["csv_to_json.py", "in.csv", "out.json"] fsReadDenied).exitCode = 1
    ∧ (mainRun ["csv_to_json.py", "in.csv", "out.json"] fsWriteDenied).exitCode = 1
    ∧ "in.csv" ≠ "out.json" := by decide

/-- C8 (amended): every caught failure exits with status 1 and the
message distinguishes not-found from permission-denied; the not-found
message names the input path, while the permission-denied message
names both paths without identifying which one failed. -/
theorem error_reporting_behavior (fs : FS) (prog inputCsv outputJson : String) :
    (fs.openRead inputCsv = Except.error OpenErr.notFound →
      mainRun [prog, inputCsv, outputJson] fs
        = ⟨1, [notFoundMsg inputCsv], fs, [FsEvent.readOpen inputCsv]⟩)
    ∧ (fs.openRead inputCsv = Except.error OpenErr.permDenied →
      mainRun [prog, inputCsv, outputJson] fs
        = ⟨1, [permDeniedMsg inputCsv outputJson], fs, [FsEvent.readOpen inputCsv]⟩)
    ∧ (∀ content out, fs.openRead inputCsv = Except.ok content →
      convertContent content = Except.ok out →
      fs.openWriteOk outputJson = false →
      mainRun [prog, inputCsv, outputJson] fs
        = ⟨1, [permDeniedMsg inputCsv outputJson], fs,
           [FsEvent.readOpen inputCsv, FsEvent.writeOpen outputJson]⟩) :=
  ⟨mainRun_notFound fs prog inputCsv outputJson,
   mainRun_readDenied fs prog inputCsv outputJson,
   fun content out hr hc hw =>
     mainRun_writeDenied fs prog inputCsv outputJson content out hr hc hw⟩

/-- Witness for C8: read-denied input and write-denied output produce
the same permission message. -/
theorem error_reporting_behavior_witness :
    mainRun ["csv_to_json.py", "in.csv", "out.json"] fsReadDenied
      = ⟨1, [permDeniedMsg "in.csv" "out.json"], fsReadDenied, [FsEvent.readOpen "in.csv"]⟩
    ∧ mainRun ["csv_to_json.py", "in.csv", "out.json"] fsWriteDenied
      = ⟨1, [permDeniedMsg "in.csv" "out.json"], fsWriteDenied,
         [FsEvent.readOpen "in.csv", FsEvent.writeOpen "out.json"]⟩ :=
  ⟨(error_reporting_behavior fsReadDenied "csv_to_json.py" "in.csv" "out.json").2.1
     (by decide),
   (error_reporting_behavior fsWriteDenied "csv_to_json.py" "in.csv" "out.json").2.2
     "a\nx\n" "[\n    \x7b\n        \"a\": \"x\"\n    \x7d\n]" (by decide) (by decide)
     (by decide)⟩

/-- C9: in every successful run the input is read and fully parsed
before the output path is opened (the read open precedes the write
open in the event trace), so running with `input_path = output_path`
serializes the original file contents, not a truncated file. -/
theorem input_fully_read_before_write (fs : FS) (prog p content out : String)
    (hr : fs.openRead p = Except.ok content)
    (hc : convertContent content = Except.ok out)
    (hw : fs.openWriteOk p = true) :
    mainRun [prog, p, p] fs
      = ⟨0, [successMsg p p], fs.writeFile p out,
         [FsEvent.readOpen p, FsEvent.writeOpen p]⟩ :=
  mainRun_ok fs prog p p content out hr hc hw

/-- Witness for C9: converting `data.csv` onto itself serializes the
original CSV contents. -/
theorem input_fully_read_before_write_witness :
    mainRun ["csv_to_json.py", "data.csv", "data.csv"] ⟨[("data.csv", scenarioInput)], [], []⟩
      = ⟨0, [successMsg "data.csv" "data.csv"],
         FS.writeFile ⟨[("data.csv", scenarioInput)], [], []⟩ "data.csv" scenarioActualOutput,
         [FsEvent.readOpen "data.csv", FsEvent.writeOpen "data.csv"]⟩ :=
  input_fully_read_before_write ⟨[("data.csv", scenarioInput)], [], []⟩ "csv_to_json.py"
    "data.csv" scenarioInput scenarioActualOutput (by decide) (by decide) (by decide)

/-- C10 counterexample: a header-only file whose single header field is
one character over `csv.field_size_limit` does not convert to `[]` —
the uncaught `_csv.Error` kills the run with exit status 1, nothing on
stdout and no output file. -/
theorem over_limit_header_only_cex :
    convertContent (renderCsv [bigFieldStr] []) = Except.error CsvErr.fieldTooLarge
    ∧ (mainRun ["csv_to_json.py", "hdr.csv", "out.json"] bigHeaderFS).exitCode = 1
    ∧ (mainRun ["csv_to_json.py", "hdr.csv", "out.json"] bigHeaderFS).stdout = []
    ∧ (mainRun ["csv_to_json.py", "hdr.csv", "out.json"] bigHeaderFS).fs.lookupFile
        "out.json" = none := by
  have hsimple : ∀ c ∈ List.replicate fieldSizeLimit 'a', simpleChar c := by
    intro c hc
    rw [List.eq_of_mem_replicate hc]
    decide
  have herr : (List.foldl csvStep ⟨[], [], ['a'], CsvMode.inField, false⟩
      (List.replicate fieldSizeLimit 'a')).err = true := by
    apply foldl_csvStep_inField_err (List.replicate fieldSizeLimit 'a') hsimple
    · decide
    · rw [List.length_replicate]
      decide
  have hdata : (renderCsv [bigFieldStr] []).data
      = 'a' :: (List.replicate fieldSizeLimit 'a' ++ ['\n']) := by
    have h0 : (renderCsv [bigFieldStr] []).data
        = (('a' :: List.replicate fieldSizeLimit 'a') ++ ['\n']) ++ [] := rfl
    simp only [List.append_nil, List.cons_append] at h0
    exact h0
  have hfold : (List.foldl csvStep tokInit (renderCsv [bigFieldStr] []).data).err = true := by
    rw [hdata, List.foldl_cons,
        show csvStep tokInit 'a' = ⟨[], [], ['a'], CsvMode.inField, false⟩ from rfl,
        List.foldl_append, foldl_csvStep_err_sticky ['\n'] _ herr]
    exact herr
  have hconv : convertContent (renderCsv [bigFieldStr] [])
      = Except.error CsvErr.fieldTooLarge := by
    simp only [convertContent, parseCsvRecords, tokenize, hfold]
    rfl
  have hread : bigHeaderFS.openRead "hdr.csv" = Except.ok (renderCsv [bigFieldStr] []) := rfl
  have hrun := mainRun_parseErr bigHeaderFS "csv_to_json.py" "hdr.csv" "out.json"
    (renderCsv [bigFieldStr] []) CsvErr.fieldTooLarge hread hconv
  exact ⟨hconv, by rw [hrun], by rw [hrun], by rw [hrun]; rfl⟩

/-- C10 (amended): an empty input file, or one holding only a
well-formed header line (nonempty unquoted-safe fields within the
field size limit), converts successfully: the program writes `[]` to
the output path, prints the success message naming both paths, and
exits with status 0. -/
theorem empty_or_header_only_gives_empty_array (fs : FS)
    (prog inputCsv outputJson : String) (header : List String)
    (hh : header ≠ []) (hhs : ∀ f ∈ header, SimpleField f)
    (h : fs.openRead inputCsv = Except.ok ""
        ∨ fs.openRead inputCsv = Except.ok (renderCsv header []))
    (hw : fs.openWriteOk outputJson = true) :
    mainRun [prog, inputCsv, outputJson] fs
      = ⟨0, [successMsg inputCsv outputJson], fs.writeFile outputJson "[]",
         [FsEvent.readOpen inputCsv, FsEvent.writeOpen outputJson]⟩ := by
  rcases h with h | h
  · exact mainRun_ok fs prog inputCsv outputJson "" "[]" h rfl hw
  · have hconv : convertContent (renderCsv header []) = Except.ok "[]" := by
      simp only [convertContent]
      rw [parseCsvRecords_renderCsv header [] hh hhs (by simp) (by simp)]
      rfl
    exact mainRun_ok fs prog inputCsv outputJson (renderCsv header []) "[]" h hconv hw

/-- Witness for C10: a header-only input file yields `[]`. -/
theorem empty_or_header_only_witness :
    mainRun ["csv_to_json.py", "hdr.csv", "out.json"] ⟨[("hdr.csv", "name,age\n")], [], []⟩
      = ⟨0, [successMsg "hdr.csv" "out.json"],
         FS.writeFile ⟨[("hdr.csv", "name,age\n")], [], []⟩ "out.json" "[]",
         [FsEvent.readOpen "hdr.csv", FsEvent.writeOpen "out.json"]⟩ :=
  empty_or_header_only_gives_empty_array ⟨[("hdr.csv", "name,age\n")], [], []⟩
    "csv_to_json.py" "hdr.csv" "out.json" ["name", "age"] (by decide) (by decide)
    (Or.inr (by decide)) (by decide)

end CsvToJson
